import Mathlib

/-!
Verification development for the agent-rag-service repository.

The definitions below are a shallow embedding of the chunked-upload
reassembly flow (src/services/v1/upload_service.py, src/api/v1/endpoints/upload.py)
and of the retrieval tools (src/agents/tools/uploaded_files.py).
File contents are lists of byte values; the filesystem staging directory of one
upload session is an association list from the integer in the chunk file name
to the persisted bytes, together with the optional merged output file.
External collaborators (the Qdrant index, the ingestion pipeline) are oracles
passed as parameters.
-/

/-- Bytes of a file, as a list of byte values. -/
abbrev Bytes := List Nat

/-- The chunks staging directory of one upload session: one entry per chunk
file, keyed by the integer in the file name (upload_service.py line 98 builds
the name from the request's chunk index). -/
abbrev ChunkDir := List (Int × Bytes)

/-- Bytes persisted under chunk key k, if that chunk file exists. -/
def lookupChunk (d : ChunkDir) (k : Int) : Option Bytes :=
  match d with
  | [] => none
  | (k', b) :: rest => if k' = k then some b else lookupChunk rest k

/-- Opening the chunk file for key k in write mode: replaces the bytes in
place when the file exists, creates the file otherwise. -/
def writeChunkFile (d : ChunkDir) (k : Int) (b : Bytes) : ChunkDir :=
  match d with
  | [] => [(k, b)]
  | (k', b') :: rest =>
    if k' = k then (k, b) :: rest else (k', b') :: writeChunkFile rest k b

/-- The staging state of one upload session: the chunk files and the merged
output file (written at temp_dir/file_name), when present. -/
structure SessionDir where
  chunkFiles : ChunkDir
  finalFile : Option Bytes
  deriving DecidableEq

/-- A fault escaping a request handler: a structured HTTPException, or an
uncaught Python exception raised by int() conversion. -/
inductive Fault where
  | http (status : Nat) (detail : String)
  | pyValueError
  deriving DecidableEq

/-- Response schema of the chunk-upload endpoint (api/v1/schema/upload.py). -/
structure UploadFileChunkResponse where
  file_id : String
  file_name : String
  complete : Bool
  deriving DecidableEq

/-- Oracle for the ingestion pipeline run after a merge (process_file plus
add_documents_to_qdrant): given the merged bytes it succeeds or raises. -/
abbrev Ingest := Bytes → Except String Unit

/-- The merge loop body of upload_file_chunks (lines 110-122): walks the given
chunk keys in order, appending each chunk's bytes to the output file; on the
first missing chunk it aborts, leaving the partially written output. The
error carries the missing key and the bytes written so far. -/
def mergeGo (d : ChunkDir) : List Int → Bytes → Except (Int × Bytes) Bytes
  | [], acc => .ok acc
  | i :: rest, acc =>
    match lookupChunk d i with
    | none => .error (i, acc)
    | some b => mergeGo d rest (acc ++ b)

/-- Merging total chunks: reads chunk files strictly in index order 0,1,.. -/
def mergeChunks (d : ChunkDir) (total : Nat) : Except (Int × Bytes) Bytes :=
  mergeGo d ((List.range total).map Int.ofNat) []

/-- Embedding of upload_file_chunks (upload_service.py lines 87-141): always
persists the request body under the request's chunk index; when the arriving
index equals total_chunks - 1 it merges all chunks in index order (raising
HTTP 400 naming the first missing chunk), runs ingestion on the merged bytes
(raising HTTP 500 on any ingestion failure), and answers complete := true;
any other index answers complete := false. The returned state is the session
staging directory after the request. -/
def upload_file_chunks (ingest : Ingest) (st : SessionDir)
    (file_id file_name : String) (chunk_index total_chunks : Int)
    (body : Bytes) : Except Fault UploadFileChunkResponse × SessionDir :=
  if chunk_index = total_chunks - 1 then
    match mergeChunks (writeChunkFile st.chunkFiles chunk_index body)
        total_chunks.toNat with
    | .error (i, writtenSoFar) =>
      (.error (.http 400 ("Missing chunk " ++ toString i ++ ". Upload incomplete.")),
        ⟨writeChunkFile st.chunkFiles chunk_index body, some writtenSoFar⟩)
    | .ok merged =>
      match ingest merged with
      | .error _ =>
        (.error (.http 500 "File processing failed"),
          ⟨writeChunkFile st.chunkFiles chunk_index body, some merged⟩)
      | .ok _ =>
        (.ok ⟨file_id, file_name, true⟩,
          ⟨writeChunkFile st.chunkFiles chunk_index body, some merged⟩)
  else
    (.ok ⟨file_id, file_name, false⟩,
      ⟨writeChunkFile st.chunkFiles chunk_index body, st.finalFile⟩)

/-- One chunk-upload request of a session: the declared chunk index, the
declared total chunk count, and the raw body bytes. -/
structure ChunkRequest where
  chunk_index : Int
  total_chunks : Int
  body : Bytes
  deriving DecidableEq

/-- Running a sequence of chunk-upload requests of one session in arrival
order, collecting each request's outcome and the final staging state. -/
def runFlow (ingest : Ingest) (file_id file_name : String) :
    SessionDir → List ChunkRequest →
    List (Except Fault UploadFileChunkResponse) × SessionDir
  | st, [] => ([], st)
  | st, r :: rs =>
    let out := upload_file_chunks ingest st file_id file_name
      r.chunk_index r.total_chunks r.body
    let rest := runFlow ingest file_id file_name out.2 rs
    (out.1 :: rest.1, rest.2)

/-- One entry of a search result list: an ordinary result record, or the
error-shaped record the tools build from a caught exception. -/
inductive ResultEntry where
  | record (content : String) (score : Rat)
  | err (message : String)
  deriving DecidableEq

/-- The callable surface of core.qdrant as seen by the tools: each call
either returns a result list or raises an exception with a message. -/
structure QdrantStore where
  search : String → Int → Rat → List String → Except String (List ResultEntry)
  keywordSearch : String → Int → List String → Except String (List ResultEntry)

/-- Embedding of the tool hybrid_search_uploaded_files (uploaded_files.py
lines 9-60): empty session scope short-circuits to an empty list; otherwise
the store is queried with the caller's alpha, any raise being caught and
returned as a single error entry. -/
def hybrid_search_uploaded_files (store : QdrantStore)
    (uploaded_files : List String) (query : String) (limit : Int)
    (alpha : Rat) : List ResultEntry :=
  if uploaded_files = [] then []
  else
    match store.search query limit alpha uploaded_files with
    | .ok results => results
    | .error e => [.err ("Search failed: " ++ e)]

/-- Embedding of dense_search_uploaded_files (lines 63-111): same body with
alpha fixed at 1.0. -/
def dense_search_uploaded_files (store : QdrantStore)
    (uploaded_files : List String) (query : String) (limit : Int) :
    List ResultEntry :=
  if uploaded_files = [] then []
  else
    match store.search query limit 1 uploaded_files with
    | .ok results => results
    | .error e => [.err ("Search failed: " ++ e)]

/-- Embedding of sparse_search_uploaded_files (lines 114-163): same body with
alpha fixed at 0.0. -/
def sparse_search_uploaded_files (store : QdrantStore)
    (uploaded_files : List String) (query : String) (limit : Int) :
    List ResultEntry :=
  if uploaded_files = [] then []
  else
    match store.search query limit 0 uploaded_files with
    | .ok results => results
    | .error e => [.err ("Search failed: " ++ e)]

/-- Embedding of keyword_search_from_uploaded_files (lines 166-217): boolean
keyword search over the session scope, raises caught as one error entry. -/
def keyword_search_from_uploaded_files (store : QdrantStore)
    (uploaded_files : List String) (query : String) (limit : Int) :
    List ResultEntry :=
  if uploaded_files = [] then []
  else
    match store.keywordSearch query limit uploaded_files with
    | .ok results => results
    | .error e => [.err ("Keyword search failed: " ++ e)]

/-- Embedding of compare_search_methods_for_uploaded_files (lines 220-301):
with an empty scope it returns the four strategy keys with empty lists; the
four sub-queries sit inside one try block evaluated in dictionary-literal
order, so the first raise aborts the remaining sub-queries and the except
branch returns a single entry keyed "error". -/
def compare_search_methods_for_uploaded_files (store : QdrantStore)
    (uploaded_files : List String) (query : String) (limit : Int) :
    List (String × List ResultEntry) :=
  if uploaded_files = [] then
    [("hybrid_search_uploaded_files", []),
     ("dense_search_uploaded_files", []),
     ("sparse_search_uploaded_files", []),
     ("keyword_search_from_uploaded_files", [])]
  else
    match (do
      let h ← store.search query limit ((1 : Rat) / 2) uploaded_files
      let d ← store.search query limit 1 uploaded_files
      let s ← store.search query limit 0 uploaded_files
      let k ← store.keywordSearch query limit uploaded_files
      pure [("hybrid_search_uploaded_files", h),
            ("dense_search_uploaded_files", d),
            ("sparse_search_uploaded_files", s),
            ("keyword_search_from_uploaded_files", k)] :
      Except String (List (String × List ResultEntry))) with
    | .ok table => table
    | .error e => [("error", [.err ("Keyword search failed: " ++ e)])]

/-- A fault raised by the qdrant query layer before or while touching the
index. -/
inductive QdrantRaise where
  | invalidParameter (detail : String)
  deriving DecidableEq

/-- The underlying vector+keyword index, as a pure query oracle. -/
structure QdrantIndex where
  query : String → Int → Rat → List String → List ResultEntry
  keywordQuery : String → Int → List String → List ResultEntry

/-- Modelled from the spec: core/qdrant.py (search_from_qdrant) is not under
src/, only its callers are. Section 4.5 and the error taxonomy of the spec
state that alpha outside [0.0, 1.0] and a non-positive limit fail with
InvalidParameter; the parameters are validated before the index is queried. -/
def search_from_qdrant (idx : QdrantIndex) (query : String) (k : Int)
    (alpha : Rat) (filter : List String) :
    Except QdrantRaise (List ResultEntry) :=
  if alpha < 0 ∨ 1 < alpha then
    .error (.invalidParameter "alpha must be within [0.0, 1.0]")
  else if k ≤ 0 then
    .error (.invalidParameter "limit must be a positive integer")
  else
    .ok (idx.query query k alpha filter)

/-- Modelled from the spec: core/qdrant.py (keyword_search_from_qdrant) is
not under src/. The spec's error taxonomy makes a non-positive limit fail
with InvalidParameter before the index is queried. -/
def keyword_search_from_qdrant (idx : QdrantIndex) (query : String)
    (limit : Int) (filter : List String) :
    Except QdrantRaise (List ResultEntry) :=
  if limit ≤ 0 then
    .error (.invalidParameter "limit must be a positive integer")
  else
    .ok (idx.keywordQuery query limit filter)

/-- HTTP request headers read by the chunk-upload endpoint
(api/v1/endpoints/upload.py lines 17-20); a field is none when the header is
absent. -/
structure HttpHeaders where
  xFileId : Option String
  xFilename : Option String
  xChunkIndex : Option String
  xTotalChunks : Option String
  deriving DecidableEq

/-- Whitespace stripped by Python's int() before parsing (ASCII subset). -/
def isPySpace (c : Char) : Bool :=
  c = ' ' ∨ c = '\t' ∨ c = '\n' ∨ c = '\r' ∨ c = '\x0b' ∨ c = '\x0c'

/-- Digits of a Python decimal integer literal after the first digit: plain
digits, with single underscores allowed between digits only. -/
def pyDigitsGo (acc : Nat) : List Char → Option Nat
  | [] => some acc
  | '_' :: c :: rest =>
    if c.isDigit then pyDigitsGo (acc * 10 + (c.toNat - '0'.toNat)) rest
    else none
  | '_' :: [] => none
  | c :: rest =>
    if c.isDigit then pyDigitsGo (acc * 10 + (c.toNat - '0'.toNat)) rest
    else none

/-- A nonempty Python decimal digit run (underscore-separated), as a Nat. -/
def pyDigits : List Char → Option Nat
  | [] => none
  | c :: rest =>
    if c.isDigit then pyDigitsGo (c.toNat - '0'.toNat) rest else none

/-- Model of Python's int(str) on ASCII decimal strings: strips surrounding
whitespace, accepts one optional sign, then a nonempty underscore-separated
digit run; none models an uncaught ValueError. -/
def pyInt (s : String) : Option Int :=
  let cs := ((s.toList.dropWhile isPySpace).reverse.dropWhile isPySpace).reverse
  match cs with
  | '+' :: rest => (pyDigits rest).map Int.ofNat
  | '-' :: rest => (pyDigits rest).map (fun n => -(Int.ofNat n))
  | rest => (pyDigits rest).map Int.ofNat

/-- Embedding of the endpoint upload_chunks (api/v1/endpoints/upload.py
lines 15-34), in source statement order: the chunk-index and total-chunks
headers are converted with int() (an unparsable value raises an uncaught
ValueError) before the file-name check, which itself precedes the call into
upload_file_chunks; a missing file id is replaced by a generated one. The
session staging state is threaded through and returned unchanged on every
path that stops before upload_file_chunks. -/
def upload_chunks (ingest : Ingest) (st : SessionDir) (h : HttpHeaders)
    (genId : String) (body : Bytes) :
    Except Fault UploadFileChunkResponse × SessionDir :=
  let ci? : Option Int :=
    match h.xChunkIndex with
    | none => some 0
    | some s => pyInt s
  let tc? : Option Int :=
    match h.xTotalChunks with
    | none => some 1
    | some s => pyInt s
  match ci?, tc? with
  | some ci, some tc =>
    match h.xFilename with
    | none => (.error (.http 400 "Filename required"), st)
    | some fname =>
      if fname = "" then (.error (.http 400 "Filename required"), st)
      else
        let fid : String :=
          match h.xFileId with
          | none => genId
          | some s => if s = "" then genId else s
        upload_file_chunks ingest st fid fname ci tc body
  | _, _ => (.error .pyValueError, st)

/-- Fuel-indexed greedy sliding window over the characters of one document
unit; the fuel is an upper bound on the recursion depth. -/
def splitGo (size step : Nat) : Nat → List Char → List (List Char)
  | 0, s => [s]
  | fuel + 1, s =>
    if s.length ≤ size then [s]
    else s.take size :: splitGo size step fuel (s.drop step)

/-- Modelled from the spec: the splitter run by process_file
(upload_service.py lines 72-77) is the langchain RecursiveCharacterTextSplitter,
whose implementation is not part of src/. Spec section 4.3 specifies a greedy
sliding-window split: each passage is at most size characters and consecutive
passages overlap by ovl characters, so the window advances by size - ovl. -/
def splitGreedy (size ovl : Nat) (s : List Char) : List (List Char) :=
  splitGo size (size - ovl) s.length s

/-- Splitting as configured in process_file: chunk_size 1000, overlap 200. -/
def split_documents (s : List Char) : List (List Char) :=
  splitGreedy 1000 200 s

/-- C8: for every store, session scope, query and limit, the hybrid tool
invoked with alpha = 1.0 returns the same results as the dense tool, and
with alpha = 0.0 the same results as the sparse tool. The store is
universally quantified, so the equality holds whatever the index answers
or raises. -/
theorem hybrid_alpha_extremes_match_dense_sparse (store : QdrantStore)
    (uploaded_files : List String) (query : String) (limit : Int) :
    hybrid_search_uploaded_files store uploaded_files query limit 1
      = dense_search_uploaded_files store uploaded_files query limit
    ∧ hybrid_search_uploaded_files store uploaded_files query limit 0
      = sparse_search_uploaded_files store uploaded_files query limit :=
  ⟨rfl, rfl⟩

/-- C4: with an empty session scope every retrieval mode returns an empty
result set and compare returns the four strategy keys with empty lists;
the store is universally quantified (the result does not depend on the
index in any way), which is the shallow form of issuing no query. -/
theorem empty_scope_returns_empty_without_query (store : QdrantStore)
    (query : String) (limit : Int) (alpha : Rat) :
    hybrid_search_uploaded_files store [] query limit alpha = []
    ∧ dense_search_uploaded_files store [] query limit = []
    ∧ sparse_search_uploaded_files store [] query limit = []
    ∧ keyword_search_from_uploaded_files store [] query limit = []
    ∧ compare_search_methods_for_uploaded_files store [] query limit
      = [("hybrid_search_uploaded_files", []),
         ("dense_search_uploaded_files", []),
         ("sparse_search_uploaded_files", []),
         ("keyword_search_from_uploaded_files", [])] :=
  ⟨rfl, rfl, rfl, rfl, rfl⟩

/-- C10: if the chunk-index or total-chunks header is present but is not a
decimal integer string, the endpoint stops with the uncaught int()
ValueError — before the file-name check (the file-name header here is
arbitrary, possibly absent) and before any staging write (the returned
session state is exactly the input state). -/
theorem upload_chunks_nonnumeric_header_uncaught (ingest : Ingest)
    (st : SessionDir) (h : HttpHeaders) (genId : String) (body : Bytes)
    (hbad : (∃ s, h.xChunkIndex = some s ∧ pyInt s = none)
      ∨ (∃ s, h.xTotalChunks = some s ∧ pyInt s = none)) :
    upload_chunks ingest st h genId body = (.error .pyValueError, st) := by
  unfold upload_chunks
  rcases hbad with ⟨s, hs, hp⟩ | ⟨s, hs, hp⟩
  · rcases htc : h.xTotalChunks with _ | t
    · simp [hs, hp, htc]
    · rcases hpt : pyInt t with _ | v <;> simp [hs, hp, htc, hpt]
  · rcases hci : h.xChunkIndex with _ | s'
    · simp [hs, hp, hci]
    · rcases hpi : pyInt s' with _ | v <;> simp [hs, hp, hci, hpi]

/-- Witness for C10 at a concrete request: the chunk-index header "abc" is
not a decimal integer string, and the endpoint answers the uncaught
ValueError leaving the staging state untouched. -/
theorem upload_chunks_nonnumeric_header_uncaught_witness :
    ((∃ s, (HttpHeaders.mk none none (some "abc") none).xChunkIndex = some s
        ∧ pyInt s = none)
      ∨ (∃ s, (HttpHeaders.mk none none (some "abc") none).xTotalChunks = some s
        ∧ pyInt s = none))
    ∧ upload_chunks (fun _ => .ok ()) ⟨[(0, [9])], none⟩
        ⟨none, none, some "abc", none⟩ "gen" [7]
      = (.error .pyValueError, ⟨[(0, [9])], none⟩) :=
  ⟨Or.inl ⟨"abc", rfl, by decide⟩,
    upload_chunks_nonnumeric_header_uncaught (fun _ => .ok ())
      ⟨[(0, [9])], none⟩ ⟨none, none, some "abc", none⟩ "gen" [7]
      (Or.inl ⟨"abc", rfl, by decide⟩)⟩

/-- C7: a hybrid query with alpha outside [0.0, 1.0], and any query with a
non-positive limit, fails with InvalidParameter; the failing call returns
the same error whatever the index holds, so the index is never consulted. -/
theorem qdrant_invalid_parameter_rejected (idx : QdrantIndex)
    (query : String) (k : Int) (alpha : Rat) (filter : List String)
    (hbad : alpha < 0 ∨ 1 < alpha ∨ k ≤ 0) :
    (∃ d, search_from_qdrant idx query k alpha filter
        = .error (.invalidParameter d))
    ∧ (∀ idx', search_from_qdrant idx' query k alpha filter
        = search_from_qdrant idx query k alpha filter)
    ∧ (k ≤ 0 →
        (∃ d, keyword_search_from_qdrant idx query k filter
            = .error (.invalidParameter d))
        ∧ ∀ idx', keyword_search_from_qdrant idx' query k filter
            = keyword_search_from_qdrant idx query k filter) := by
  refine ⟨?_, ?_, ?_⟩
  · by_cases ha : alpha < 0 ∨ 1 < alpha
    · exact ⟨_, by unfold search_from_qdrant; rw [if_pos ha]⟩
    · have hk : k ≤ 0 := by tauto
      exact ⟨_, by unfold search_from_qdrant; rw [if_neg ha, if_pos hk]⟩
  · intro idx'
    by_cases ha : alpha < 0 ∨ 1 < alpha
    · unfold search_from_qdrant
      rw [if_pos ha, if_pos ha]
    · have hk : k ≤ 0 := by tauto
      unfold search_from_qdrant
      rw [if_neg ha, if_neg ha, if_pos hk, if_pos hk]
  · intro hk
    refine ⟨⟨_, by unfold keyword_search_from_qdrant; rw [if_pos hk]⟩, ?_⟩
    intro idx'
    unfold keyword_search_from_qdrant
    rw [if_pos hk, if_pos hk]

/-- Witness for C7 at concrete inputs: alpha = 2 is outside the range and
limit 0 is non-positive, and both calls answer InvalidParameter on a
concrete index. -/
theorem qdrant_invalid_parameter_rejected_witness :
    ((2 : Rat) < 0 ∨ (1 : Rat) < 2 ∨ (0 : Int) ≤ 0)
    ∧ ((∃ d, search_from_qdrant ⟨fun _ _ _ _ => [], fun _ _ _ => []⟩ "q" 0 2 ["f"]
          = .error (.invalidParameter d))
      ∧ (∀ idx', search_from_qdrant idx' "q" 0 2 ["f"]
          = search_from_qdrant ⟨fun _ _ _ _ => [], fun _ _ _ => []⟩ "q" 0 2 ["f"])
      ∧ ((0 : Int) ≤ 0 →
          (∃ d, keyword_search_from_qdrant ⟨fun _ _ _ _ => [], fun _ _ _ => []⟩ "q" 0 ["f"]
              = .error (.invalidParameter d))
          ∧ ∀ idx', keyword_search_from_qdrant idx' "q" 0 ["f"]
              = keyword_search_from_qdrant ⟨fun _ _ _ _ => [], fun _ _ _ => []⟩ "q" 0 ["f"])) :=
  ⟨by norm_num,
    qdrant_invalid_parameter_rejected ⟨fun _ _ _ _ => [], fun _ _ _ => []⟩
      "q" 0 2 ["f"] (by norm_num)⟩

/-- Counterexample to C2: with a store whose boolean-keyword search raises
while the three vector searches succeed, compare does not return four result
sets keyed by strategy name — it returns a single result set keyed "error",
and the three successful strategies' results are dropped. -/
theorem compare_raise_collapses_to_single_key :
    (compare_search_methods_for_uploaded_files
        ⟨fun _ _ _ _ => .ok [.record "hit" 1], fun _ _ _ => .error "boom"⟩
        ["f1"] "q" 3).map Prod.fst = ["error"]
    ∧ compare_search_methods_for_uploaded_files
        ⟨fun _ _ _ _ => .ok [.record "hit" 1], fun _ _ _ => .error "boom"⟩
        ["f1"] "q" 3
      = [("error", [.err "Keyword search failed: boom"])] :=
  ⟨rfl, rfl⟩

/-- C2 amended: with a nonempty scope, compare returns the four result sets
keyed by strategy name when no sub-search raises; but the four sub-searches
share one try block, so if any raises, compare returns a single result set
keyed "error" carrying an error marker, and the other strategies' results
are not returned. -/
theorem compare_four_keys_or_error_collapse (store : QdrantStore)
    (files : List String) (query : String) (limit : Int) (hne : files ≠ []) :
    (∀ h d s k,
      store.search query limit ((1 : Rat) / 2) files = .ok h →
      store.search query limit 1 files = .ok d →
      store.search query limit 0 files = .ok s →
      store.keywordSearch query limit files = .ok k →
      compare_search_methods_for_uploaded_files store files query limit
        = [("hybrid_search_uploaded_files", h),
           ("dense_search_uploaded_files", d),
           ("sparse_search_uploaded_files", s),
           ("keyword_search_from_uploaded_files", k)])
    ∧ (((∃ e, store.search query limit ((1 : Rat) / 2) files = .error e)
        ∨ (∃ e, store.search query limit 1 files = .error e)
        ∨ (∃ e, store.search query limit 0 files = .error e)
        ∨ (∃ e, store.keywordSearch query limit files = .error e)) →
      ∃ msg, compare_search_methods_for_uploaded_files store files query limit
        = [("error", [.err ("Keyword search failed: " ++ msg)])]) := by
  constructor
  · intro h d s k h1 h2 h3 h4
    unfold compare_search_methods_for_uploaded_files
    rw [if_neg hne]
    simp only [one_div] at h1 ⊢
    simp [h1, h2, h3, h4, Bind.bind, Except.bind, Pure.pure, Except.pure]
  · intro hfail
    unfold compare_search_methods_for_uploaded_files
    rw [if_neg hne]
    rcases c1 : store.search query limit ((1 : Rat) / 2) files with e1 | r1
    · refine ⟨e1, ?_⟩
      simp only [one_div] at c1 ⊢
      simp [c1, Bind.bind, Except.bind, Pure.pure, Except.pure]
    · rcases c2 : store.search query limit 1 files with e2 | r2
      · refine ⟨e2, ?_⟩
        simp only [one_div] at c1 ⊢
        simp [c1, c2, Bind.bind, Except.bind, Pure.pure, Except.pure]
      · rcases c3 : store.search query limit 0 files with e3 | r3
        · refine ⟨e3, ?_⟩
          simp only [one_div] at c1 ⊢
          simp [c1, c2, c3, Bind.bind, Except.bind, Pure.pure, Except.pure]
        · rcases c4 : store.keywordSearch query limit files with e4 | r4
          · refine ⟨e4, ?_⟩
            simp only [one_div] at c1 ⊢
            simp [c1, c2, c3, c4, Bind.bind, Except.bind, Pure.pure, Except.pure]
          · exfalso
            rcases hfail with ⟨e, he⟩ | ⟨e, he⟩ | ⟨e, he⟩ | ⟨e, he⟩
            · rw [c1] at he; exact Except.noConfusion he
            · rw [c2] at he; exact Except.noConfusion he
            · rw [c3] at he; exact Except.noConfusion he
            · rw [c4] at he; exact Except.noConfusion he

/-- Witness for C2's amended theorem at a concrete store whose keyword
search raises: both the all-success shape and the collapse-on-raise shape
are exercised at the scope ["f1"]. -/
theorem compare_four_keys_or_error_collapse_witness :
    ((["f1"] : List String) ≠ [])
    ∧ ((∀ h d s k,
        QdrantStore.search ⟨fun _ _ _ _ => .ok [], fun _ _ _ => .error "down"⟩
            "q" 3 ((1 : Rat) / 2) ["f1"] = .ok h →
        QdrantStore.search ⟨fun _ _ _ _ => .ok [], fun _ _ _ => .error "down"⟩
            "q" 3 1 ["f1"] = .ok d →
        QdrantStore.search ⟨fun _ _ _ _ => .ok [], fun _ _ _ => .error "down"⟩
            "q" 3 0 ["f1"] = .ok s →
        QdrantStore.keywordSearch ⟨fun _ _ _ _ => .ok [], fun _ _ _ => .error "down"⟩
            "q" 3 ["f1"] = .ok k →
        compare_search_methods_for_uploaded_files
            ⟨fun _ _ _ _ => .ok [], fun _ _ _ => .error "down"⟩ ["f1"] "q" 3
          = [("hybrid_search_uploaded_files", h),
             ("dense_search_uploaded_files", d),
             ("sparse_search_uploaded_files", s),
             ("keyword_search_from_uploaded_files", k)])
      ∧ (((∃ e, QdrantStore.search ⟨fun _ _ _ _ => .ok [], fun _ _ _ => .error "down"⟩
              "q" 3 ((1 : Rat) / 2) ["f1"] = .error e)
          ∨ (∃ e, QdrantStore.search ⟨fun _ _ _ _ => .ok [], fun _ _ _ => .error "down"⟩
              "q" 3 1 ["f1"] = .error e)
          ∨ (∃ e, QdrantStore.search ⟨fun _ _ _ _ => .ok [], fun _ _ _ => .error "down"⟩
              "q" 3 0 ["f1"] = .error e)
          ∨ (∃ e, QdrantStore.keywordSearch ⟨fun _ _ _ _ => .ok [], fun _ _ _ => .error "down"⟩
              "q" 3 ["f1"] = .error e)) →
        ∃ msg, compare_search_methods_for_uploaded_files
            ⟨fun _ _ _ _ => .ok [], fun _ _ _ => .error "down"⟩ ["f1"] "q" 3
          = [("error", [.err ("Keyword search failed: " ++ msg)])])) :=
  ⟨by decide,
    compare_four_keys_or_error_collapse
      ⟨fun _ _ _ _ => .ok [], fun _ _ _ => .error "down"⟩ ["f1"] "q" 3
      (by decide)⟩

/-- Writing chunk key k then looking a key up reads the new bytes at k and
leaves every other key unchanged. -/
theorem lookupChunk_writeChunkFile (d : ChunkDir) (k k' : Int) (b : Bytes) :
    lookupChunk (writeChunkFile d k b) k'
      = if k' = k then some b else lookupChunk d k' := by
  induction d with
  | nil =>
    simp only [writeChunkFile, lookupChunk]
    by_cases h : k = k'
    · subst h; simp
    · rw [if_neg h, if_neg fun hh => h hh.symm]
  | cons hd tl ih =>
    obtain ⟨k0, b0⟩ := hd
    by_cases h0 : k0 = k <;> by_cases h' : k' = k <;>
      (simp_all [writeChunkFile, lookupChunk]; try simp_all [eq_comm])

/-- Writing to a key that already has a chunk file keeps the list of chunk
file names unchanged. -/
theorem writeChunkFile_fst_of_mem (d : ChunkDir) (k : Int) (b : Bytes)
    (hmem : k ∈ d.map Prod.fst) :
    (writeChunkFile d k b).map Prod.fst = d.map Prod.fst := by
  induction d with
  | nil => simp at hmem
  | cons hd tl ih =>
    obtain ⟨k0, b0⟩ := hd
    by_cases h0 : k0 = k
    · subst h0; simp [writeChunkFile]
    · have hk : k ∈ tl.map Prod.fst := by
        simp only [List.map_cons, List.mem_cons] at hmem
        rcases hmem with h | h
        · exact absurd h.symm h0
        · exact h
      simp [writeChunkFile, h0, ih hk]

/-- Every chunk file name after a write is the written key or an old name. -/
theorem writeChunkFile_fst_subset (d : ChunkDir) (k : Int) (b : Bytes) :
    ∀ j ∈ (writeChunkFile d k b).map Prod.fst,
      j = k ∨ j ∈ d.map Prod.fst := by
  induction d with
  | nil => simp [writeChunkFile]
  | cons hd tl ih =>
    obtain ⟨k0, b0⟩ := hd
    intro j hj
    by_cases h0 : k0 = k
    · subst h0
      have hw : writeChunkFile ((k0, b0) :: tl) k0 b = (k0, b) :: tl := by
        simp [writeChunkFile]
      rw [hw, List.map_cons, List.mem_cons] at hj
      rw [List.map_cons, List.mem_cons]
      rcases hj with h1 | h1
      · exact Or.inr (Or.inl h1)
      · exact Or.inr (Or.inr h1)
    · have hw : writeChunkFile ((k0, b0) :: tl) k b
          = (k0, b0) :: writeChunkFile tl k b := by
        simp [writeChunkFile, h0]
      rw [hw, List.map_cons, List.mem_cons] at hj
      rw [List.map_cons, List.mem_cons]
      rcases hj with h1 | h1
      · exact Or.inr (Or.inl h1)
      · rcases ih j h1 with h2 | h2
        · exact Or.inl h2
        · exact Or.inr (Or.inr h2)

/-- A write preserves distinctness of the chunk file names. -/
theorem writeChunkFile_fst_nodup (d : ChunkDir) (k : Int) (b : Bytes)
    (h : (d.map Prod.fst).Nodup) :
    ((writeChunkFile d k b).map Prod.fst).Nodup := by
  induction d with
  | nil => simp [writeChunkFile]
  | cons hd tl ih =>
    obtain ⟨k0, b0⟩ := hd
    simp only [List.map_cons, List.nodup_cons] at h
    by_cases h0 : k0 = k
    · subst h0
      have hw : writeChunkFile ((k0, b0) :: tl) k0 b = (k0, b) :: tl := by
        simp [writeChunkFile]
      rw [hw]
      simp only [List.map_cons, List.nodup_cons]
      exact h
    · simp only [writeChunkFile, if_neg h0, List.map_cons, List.nodup_cons]
      refine ⟨?_, ih h.2⟩
      intro hk0
      rcases writeChunkFile_fst_subset tl k b k0 hk0 with h1 | h1
      · exact h0 h1
      · exact h.1 h1

/-- Whatever branch a request takes, its only effect on the chunks directory
is the single write of the arriving chunk. -/
theorem upload_file_chunks_snd_chunkFiles (ingest : Ingest) (st : SessionDir)
    (fid fname : String) (ci tc : Int) (b : Bytes) :
    (upload_file_chunks ingest st fid fname ci tc b).2.chunkFiles
      = writeChunkFile st.chunkFiles ci b := by
  unfold upload_file_chunks
  split
  · split
    · rfl
    · split <;> rfl
  · rfl

/-- Starting from a staging directory with distinct chunk file names, any
request sequence keeps the names distinct. -/
theorem runFlow_chunkFiles_nodup (ingest : Ingest) (fid fname : String) :
    ∀ (reqs : List ChunkRequest) (st : SessionDir),
      (st.chunkFiles.map Prod.fst).Nodup →
      ((runFlow ingest fid fname st reqs).2.chunkFiles.map Prod.fst).Nodup := by
  intro reqs
  induction reqs with
  | nil => intro st h; exact h
  | cons r rs ih =>
    intro st h
    simp only [runFlow]
    apply ih
    rw [upload_file_chunks_snd_chunkFiles]
    exact writeChunkFile_fst_nodup _ _ _ h

/-- C9: a chunk write for an existing key overwrites in place — the written
key afterwards holds exactly the new bytes and the list of chunk file names
is unchanged — and over any request sequence of a fresh session the staging
directory never holds two files for one chunk index. -/
theorem chunk_write_overwrites_never_duplicates :
    (∀ (d : ChunkDir) (k : Int) (b : Bytes),
        lookupChunk (writeChunkFile d k b) k = some b)
    ∧ (∀ (d : ChunkDir) (k : Int) (b : Bytes), k ∈ d.map Prod.fst →
        (writeChunkFile d k b).map Prod.fst = d.map Prod.fst)
    ∧ (∀ (ingest : Ingest) (fid fname : String) (reqs : List ChunkRequest),
        ((runFlow ingest fid fname ⟨[], none⟩ reqs).2.chunkFiles.map
          Prod.fst).Nodup) := by
  refine ⟨?_, ?_, ?_⟩
  · intro d k b
    rw [lookupChunk_writeChunkFile, if_pos rfl]
  · intro d k b h
    exact writeChunkFile_fst_of_mem d k b h
  · intro ingest fid fname reqs
    exact runFlow_chunkFiles_nodup ingest fid fname reqs ⟨[], none⟩ (by simp)

/-- Witness for C9 at a concrete directory: key 1 is already present, and
rewriting it keeps the name list identical while the bytes become the new
ones. -/
theorem chunk_write_overwrites_never_duplicates_witness :
    ((1 : Int) ∈ ([((1 : Int), ([0] : Bytes))].map Prod.fst))
    ∧ (writeChunkFile [((1 : Int), ([0] : Bytes))] 1 [5]).map Prod.fst
      = [((1 : Int), ([0] : Bytes))].map Prod.fst :=
  ⟨by decide,
    chunk_write_overwrites_never_duplicates.2.1 [((1 : Int), ([0] : Bytes))]
      1 [5] (by decide)⟩

/-- C5: when the merge triggered by the final-index chunk succeeds but
ingestion raises, the request surfaces the generic HTTP 500 "File processing
failed" and the staging state keeps both the merged output bytes and the
chunk files written so far — nothing is rolled back by the failure path. -/
theorem ingest_failure_preserves_staging (ingest : Ingest) (st : SessionDir)
    (fid fname : String) (ci tc : Int) (body merged : Bytes) (e : String)
    (hlast : ci = tc - 1)
    (hmerge : mergeChunks (writeChunkFile st.chunkFiles ci body) tc.toNat
      = .ok merged)
    (hfail : ingest merged = .error e) :
    upload_file_chunks ingest st fid fname ci tc body
      = (.error (.http 500 "File processing failed"),
         ⟨writeChunkFile st.chunkFiles ci body, some merged⟩) := by
  subst hlast
  simp [upload_file_chunks, hmerge, hfail]

/-- Witness for C5 at a concrete session: both chunks of two are staged, the
merge of [1] and [2] succeeds, the ingestion oracle raises, and the state
keeps chunk files and merged bytes while the caller sees the generic 500. -/
theorem ingest_failure_preserves_staging_witness :
    ((1 : Int) = 2 - 1
      ∧ mergeChunks (writeChunkFile [((0 : Int), ([1] : Bytes))] 1 [2])
          (2 : Int).toNat = .ok [1, 2]
      ∧ (fun _ => (.error "parse failed" : Except String Unit)) [1, 2]
          = .error "parse failed")
    ∧ upload_file_chunks (fun _ => .error "parse failed")
        ⟨[((0 : Int), ([1] : Bytes))], none⟩ "fid" "doc.txt" 1 2 [2]
      = (.error (.http 500 "File processing failed"),
         ⟨writeChunkFile [((0 : Int), ([1] : Bytes))] 1 [2], some [1, 2]⟩) :=
  ⟨⟨by decide, rfl, rfl⟩,
    ingest_failure_preserves_staging (fun _ => .error "parse failed")
      ⟨[((0 : Int), ([1] : Bytes))], none⟩ "fid" "doc.txt" 1 2 [2] [1, 2]
      "parse failed" (by decide) rfl rfl⟩

/-- The merge loop over a concatenated key list runs the first part and, if
it succeeded, continues with the second part from the accumulated bytes. -/
theorem mergeGo_append (d : ChunkDir) (xs ys : List Int) :
    ∀ acc, mergeGo d (xs ++ ys) acc
      = match mergeGo d xs acc with
        | .ok p => mergeGo d ys p
        | .error e => .error e := by
  induction xs with
  | nil => intro acc; rfl
  | cons i xs ih =>
    intro acc
    rcases hl : lookupChunk d i with _ | b
    · simp [mergeGo, hl]
    · simp only [List.cons_append, mergeGo, hl]
      exact ih (acc ++ b)

/-- When every key in the list has a persisted chunk, the merge loop
succeeds. -/
theorem mergeGo_ok_of_present (d : ChunkDir) (xs : List Int)
    (h : ∀ i ∈ xs, (lookupChunk d i).isSome) :
    ∀ acc, ∃ p, mergeGo d xs acc = .ok p := by
  induction xs with
  | nil => intro acc; exact ⟨acc, rfl⟩
  | cons i xs ih =>
    intro acc
    have hi := h i (by simp)
    rcases hl : lookupChunk d i with _ | b
    · rw [hl] at hi; simp at hi
    · have hrec := ih (fun j hj => h j (by simp [hj])) (acc ++ b)
      simpa [mergeGo, hl] using hrec

/-- Splitting the index range at a member: the indices below m, then m, then
a remainder. -/
theorem range_split (m total : Nat) (h : m < total) :
    ∃ rest : List Nat, List.range total = List.range m ++ m :: rest := by
  induction total with
  | zero => omega
  | succ t ih =>
    by_cases hmt : m = t
    · subst hmt
      exact ⟨[], by rw [List.range_succ]⟩
    · obtain ⟨rest, hr⟩ := ih (by omega)
      refine ⟨rest ++ [t], ?_⟩
      rw [List.range_succ, hr]
      simp

/-- C3: when chunk m is absent and every smaller index is present, merging
total chunks fails naming exactly m (the lowest missing index, since the
loop scans upward); and once the missing chunk is written, merging again
succeeds. -/
theorem merge_lowest_missing_then_retry (d : ChunkDir) (total m : Nat)
    (hm : m < total) (hnone : lookupChunk d (m : Int) = none)
    (hlow : ∀ j, j < m → (lookupChunk d (j : Int)).isSome) :
    (∃ p, mergeChunks d total = .error ((m : Int), p))
    ∧ (∀ b, (∀ j, j < total → j ≠ m → (lookupChunk d (j : Int)).isSome) →
        ∃ merged, mergeChunks (writeChunkFile d (m : Int) b) total
          = .ok merged) := by
  constructor
  · have hpres : ∀ i ∈ (List.range m).map Int.ofNat,
        (lookupChunk d i).isSome := by
      intro i hi
      rcases List.mem_map.mp hi with ⟨j, hj, rfl⟩
      exact hlow j (List.mem_range.mp hj)
    obtain ⟨p, hp⟩ := mergeGo_ok_of_present d ((List.range m).map Int.ofNat)
      hpres []
    obtain ⟨rest, hr⟩ := range_split m total hm
    refine ⟨p, ?_⟩
    unfold mergeChunks
    rw [hr, List.map_append, mergeGo_append, hp]
    simp only [List.map_cons, mergeGo, Int.ofNat_eq_coe, hnone]
  · intro b hall
    have hpres : ∀ i ∈ (List.range total).map Int.ofNat,
        (lookupChunk (writeChunkFile d (m : Int) b) i).isSome := by
      intro i hi
      rcases List.mem_map.mp hi with ⟨j, hj, rfl⟩
      have hj' := List.mem_range.mp hj
      rw [lookupChunk_writeChunkFile]
      by_cases hjm : (Int.ofNat j) = (m : Int)
      · rw [if_pos hjm]; simp
      · rw [if_neg hjm]
        refine hall j hj' ?_
        intro hcon
        exact hjm (by subst hcon; rfl)
    obtain ⟨p, hp⟩ := mergeGo_ok_of_present _ _ hpres []
    refine ⟨p, ?_⟩
    unfold mergeChunks
    exact hp

/-- Witness for C3 at a concrete directory holding chunks 0 and 2 of three:
merge fails naming chunk 1, and after chunk 1 is written the merge
succeeds. -/
theorem merge_lowest_missing_then_retry_witness :
    ((1 : Nat) < 3
      ∧ lookupChunk [((0 : Int), ([1] : Bytes)), (2, [3])] ((1 : Nat) : Int)
          = none
      ∧ (∀ j : Nat, j < 1 →
          (lookupChunk [((0 : Int), ([1] : Bytes)), (2, [3])]
            ((j : Nat) : Int)).isSome))
    ∧ ((∃ p, mergeChunks [((0 : Int), ([1] : Bytes)), (2, [3])] 3
          = .error (((1 : Nat) : Int), p))
      ∧ (∀ b, (∀ j : Nat, j < 3 → j ≠ 1 →
            (lookupChunk [((0 : Int), ([1] : Bytes)), (2, [3])]
              ((j : Nat) : Int)).isSome) →
          ∃ merged,
            mergeChunks
              (writeChunkFile [((0 : Int), ([1] : Bytes)), (2, [3])]
                ((1 : Nat) : Int) b) 3
              = .ok merged)) :=
  ⟨⟨by decide, by decide, by decide⟩,
    merge_lowest_missing_then_retry [((0 : Int), ([1] : Bytes)), (2, [3])]
      3 1 (by decide) (by decide) (by decide)⟩


/-- Running a request sequence splits at any point: the second part starts
from the state the first part produced. -/
theorem runFlow_append (ingest : Ingest) (fid fname : String) :
    ∀ (xs ys : List ChunkRequest) (st : SessionDir),
      runFlow ingest fid fname st (xs ++ ys)
        = ((runFlow ingest fid fname st xs).1
            ++ (runFlow ingest fid fname
                 (runFlow ingest fid fname st xs).2 ys).1,
           (runFlow ingest fid fname
             (runFlow ingest fid fname st xs).2 ys).2) := by
  intro xs
  induction xs with
  | nil => intro ys st; simp [runFlow]
  | cons r xs ih =>
    intro ys st
    simp only [List.cons_append, runFlow, List.append_eq]
    rw [ih]

/-- Requests whose chunk index differs from total_chunks - 1 only write
their chunk and answer complete := false; a whole sequence of them folds
the writes over the staging directory. -/
theorem runFlow_nonfinal (ingest : Ingest) (fid fname : String)
    (N : Nat) (f : Nat → Bytes) :
    ∀ (l : List Nat), (∀ i ∈ l, ((i : Int) : Int) ≠ (N : Int) - 1) →
    ∀ st : SessionDir,
      runFlow ingest fid fname st
          (l.map fun (i : Nat) => ⟨(i : Int), (N : Int), f i⟩)
        = (l.map fun _ => .ok ⟨fid, fname, false⟩,
           ⟨l.foldl (fun (d : ChunkDir) (i : Nat) =>
                writeChunkFile d (i : Int) (f i)) st.chunkFiles,
            st.finalFile⟩) := by
  intro l
  induction l with
  | nil => intro _ st; simp [runFlow]
  | cons i l ih =>
    intro h st
    have hi := h i (by simp)
    have hstep : upload_file_chunks ingest st fid fname (i : Int) (N : Int)
        (f i)
        = (.ok ⟨fid, fname, false⟩,
           ⟨writeChunkFile st.chunkFiles (i : Int) (f i), st.finalFile⟩) := by
      unfold upload_file_chunks
      rw [if_neg hi]
    simp only [List.map_cons, runFlow, hstep]
    rw [ih (fun j hj => h j (by simp [hj]))
      ⟨writeChunkFile st.chunkFiles (i : Int) (f i), st.finalFile⟩]
    simp

/-- Looking a key up after folding a batch of writes keyed by naturals:
keys in the batch hold their written bytes, others read the old directory. -/
theorem lookupChunk_foldl_writes (f : Nat → Bytes) :
    ∀ (l : List Nat) (d : ChunkDir) (j : Nat),
      lookupChunk
          (l.foldl (fun (d : ChunkDir) (i : Nat) =>
            writeChunkFile d (i : Int) (f i)) d) (j : Int)
        = if j ∈ l then some (f j) else lookupChunk d (j : Int) := by
  intro l
  induction l with
  | nil => intro d j; simp
  | cons i l ih =>
    intro d j
    simp only [List.foldl_cons]
    rw [ih]
    by_cases hj : j ∈ l
    · rw [if_pos hj, if_pos (List.mem_cons_of_mem i hj)]
    · rw [if_neg hj, lookupChunk_writeChunkFile]
      by_cases hji : j = i
      · subst hji
        rw [if_pos rfl, if_pos (List.mem_cons_self j l)]
      · have hne : ((j : Int) : Int) ≠ ((i : Int) : Int) :=
          fun hc => hji (by exact_mod_cast hc)
        rw [if_neg hne, if_neg (by simp [hji, hj])]

/-- When every key of the batch reads its bytes from the directory, the merge
loop over the batch succeeds with the concatenation in list order. -/
theorem mergeGo_values (d : ChunkDir) (g : Nat → Bytes) :
    ∀ (xs : List Nat),
      (∀ i ∈ xs, lookupChunk d (i : Int) = some (g i)) →
      ∀ acc, mergeGo d (xs.map Int.ofNat) acc
        = .ok (acc ++ (xs.map g).flatten) := by
  intro xs
  induction xs with
  | nil => intro _ acc; simp [mergeGo]
  | cons i xs ih =>
    intro h acc
    have hi : lookupChunk d (i : Int) = some (g i) := h i (by simp)
    simp only [List.map_cons, mergeGo, Int.ofNat_eq_coe, hi,
      List.flatten_cons]
    rw [ih (fun j hj => h j (by simp [hj])) (acc ++ g i)]
    simp [List.append_assoc]

/-- Counterexample to C1: two chunks sent in arrival order (1, 0). The code
merges only on the request whose arriving index equals total - 1, so the
first request (index 1) triggers the merge while chunk 0 is still absent and
fails with HTTP 400; the second request persists chunk 0 — completeness is
now satisfied — yet answers complete := false, and nothing is ever merged:
the final file holds the empty partial write, not the concatenation. -/
theorem upload_out_of_order_final_first_fails :
    (runFlow (fun _ => .ok ()) "fid" "doc.txt" ⟨[], none⟩
        [⟨1, 2, [42]⟩, ⟨0, 2, [7]⟩]).1
      = [.error (.http 400 "Missing chunk 0. Upload incomplete."),
         .ok ⟨"fid", "doc.txt", false⟩]
    ∧ lookupChunk (runFlow (fun _ => .ok ()) "fid" "doc.txt" ⟨[], none⟩
        [⟨1, 2, [42]⟩, ⟨0, 2, [7]⟩]).2.chunkFiles 0 = some [7]
    ∧ lookupChunk (runFlow (fun _ => .ok ()) "fid" "doc.txt" ⟨[], none⟩
        [⟨1, 2, [42]⟩, ⟨0, 2, [7]⟩]).2.chunkFiles 1 = some [42]
    ∧ (runFlow (fun _ => .ok ()) "fid" "doc.txt" ⟨[], none⟩
        [⟨1, 2, [42]⟩, ⟨0, 2, [7]⟩]).2.finalFile = some [] :=
  ⟨rfl, rfl, rfl, rfl⟩

/-- C1 amended: for every chunk count N > 0 and every arrival permutation in
which the chunk of index N - 1 arrives last, the flow reconstructs the
merged file byte-identical to the concatenation of chunks 0..N-1 in index
order, the final request — the one that satisfies completeness — answers
complete := true, and every earlier request answers complete := false
(ingestion assumed to succeed). Permutations where index N - 1 is not last
are excluded: there the merge fires early and fails, as the counterexample
shows. -/
theorem upload_flow_ok_when_final_index_last (N : Nat) (hN : 0 < N)
    (f : Nat → Bytes) (l : List Nat) (hl : l.Perm (List.range (N - 1)))
    (ingest : Ingest) (hok : ∀ b, ingest b = .ok ())
    (fid fname : String) :
    (runFlow ingest fid fname ⟨[], none⟩
        ((l ++ [N - 1]).map fun (i : Nat) => ⟨(i : Int), (N : Int), f i⟩)).1
      = l.map (fun _ => .ok ⟨fid, fname, false⟩) ++ [.ok ⟨fid, fname, true⟩]
    ∧ (runFlow ingest fid fname ⟨[], none⟩
        ((l ++ [N - 1]).map fun (i : Nat) =>
          ⟨(i : Int), (N : Int), f i⟩)).2.finalFile
      = some (((List.range N).map f).flatten) := by
  have hmem : ∀ i ∈ l, i < N - 1 := fun i hi =>
    List.mem_range.mp (hl.mem_iff.mp hi)
  have hne : ∀ i ∈ l, ((i : Int) : Int) ≠ (N : Int) - 1 := by
    intro i hi hc
    have := hmem i hi
    omega
  have hcond : ((N - 1 : Nat) : Int) = (N : Int) - 1 := by omega
  have hpresent : ∀ i ∈ List.range N,
      lookupChunk
          (writeChunkFile
            (l.foldl (fun (d : ChunkDir) (i : Nat) =>
              writeChunkFile d (i : Int) (f i)) [])
            ((N - 1 : Nat) : Int) (f (N - 1)))
          (i : Int)
        = some (f i) := by
    intro i hi
    have hiN : i < N := List.mem_range.mp hi
    rw [lookupChunk_writeChunkFile]
    by_cases hlast : i = N - 1
    · subst hlast
      rw [if_pos rfl]
    · have hne2 : ((i : Int) : Int) ≠ ((N - 1 : Nat) : Int) :=
        fun hc => hlast (by exact_mod_cast hc)
      rw [if_neg hne2, lookupChunk_foldl_writes]
      have hin : i ∈ l := hl.mem_iff.mpr (List.mem_range.mpr (by omega))
      rw [if_pos hin]
  have hmerge : mergeChunks
      (writeChunkFile
        (l.foldl (fun (d : ChunkDir) (i : Nat) =>
          writeChunkFile d (i : Int) (f i)) [])
        ((N - 1 : Nat) : Int) (f (N - 1))) N
      = .ok (((List.range N).map f).flatten) := by
    have hv := mergeGo_values
      (writeChunkFile
        (l.foldl (fun (d : ChunkDir) (i : Nat) =>
          writeChunkFile d (i : Int) (f i)) [])
        ((N - 1 : Nat) : Int) (f (N - 1))) f (List.range N) hpresent []
    simpa [mergeChunks] using hv
  have htn : (N : Int).toNat = N := by omega
  have hstep : upload_file_chunks ingest
      ⟨l.foldl (fun (d : ChunkDir) (i : Nat) =>
        writeChunkFile d (i : Int) (f i)) [], none⟩
      fid fname ((N - 1 : Nat) : Int) (N : Int) (f (N - 1))
      = (.ok ⟨fid, fname, true⟩,
         ⟨writeChunkFile
            (l.foldl (fun (d : ChunkDir) (i : Nat) =>
              writeChunkFile d (i : Int) (f i)) [])
            ((N - 1 : Nat) : Int) (f (N - 1)),
          some (((List.range N).map f).flatten)⟩) := by
    unfold upload_file_chunks
    rw [if_pos hcond, htn]
    simp only [hmerge, hok]
  have hrun : runFlow ingest fid fname ⟨[], none⟩
      ((l ++ [N - 1]).map fun (i : Nat) => ⟨(i : Int), (N : Int), f i⟩)
      = (l.map (fun _ => .ok ⟨fid, fname, false⟩)
          ++ [.ok ⟨fid, fname, true⟩],
         ⟨writeChunkFile
            (l.foldl (fun (d : ChunkDir) (i : Nat) =>
              writeChunkFile d (i : Int) (f i)) [])
            ((N - 1 : Nat) : Int) (f (N - 1)),
          some (((List.range N).map f).flatten)⟩) := by
    rw [List.map_append, runFlow_append,
      runFlow_nonfinal ingest fid fname N f l hne ⟨[], none⟩]
    simp only [List.map_cons, List.map_nil, runFlow, hstep]
  exact ⟨by rw [hrun], by rw [hrun]⟩

/-- Witness for C1's amended theorem: two chunks arriving in index order
(0, then 1), with bytes [10] and [11]; the flow answers complete := false
then complete := true and the merged file is [10, 11]. -/
theorem upload_flow_ok_when_final_index_last_witness :
    ((0 : Nat) < 2 ∧ ([0] : List Nat).Perm (List.range (2 - 1))
      ∧ (∀ b : Bytes, (fun _ => (.ok () : Except String Unit)) b = .ok ()))
    ∧ ((runFlow (fun _ => .ok ()) "fid" "doc.txt" ⟨[], none⟩
          ((([0] : List Nat) ++ [2 - 1]).map fun (i : Nat) =>
            ⟨(i : Int), ((2 : Nat) : Int), [10 + i]⟩)).1
        = ([0] : List Nat).map (fun _ => .ok ⟨"fid", "doc.txt", false⟩)
            ++ [.ok ⟨"fid", "doc.txt", true⟩]
      ∧ (runFlow (fun _ => .ok ()) "fid" "doc.txt" ⟨[], none⟩
          ((([0] : List Nat) ++ [2 - 1]).map fun (i : Nat) =>
            ⟨(i : Int), ((2 : Nat) : Int), [10 + i]⟩)).2.finalFile
        = some (((List.range 2).map fun (i : Nat) => [10 + i]).flatten)) :=
  ⟨⟨by decide, by decide, fun _ => rfl⟩,
    upload_flow_ok_when_final_index_last 2 (by decide)
      (fun (i : Nat) => [10 + i]) [0] (by decide) (fun _ => .ok ())
      (fun _ => rfl) "fid" "doc.txt"⟩

/-- Each passage the window yields is at most size characters, provided the
fuel covers the text and the window advances. -/
theorem splitGo_sizes (size step : Nat) (hstep : 0 < step) :
    ∀ (fuel : Nat) (s : List Char), s.length ≤ fuel + size →
      ∀ p ∈ splitGo size step fuel s, p.length ≤ size := by
  intro fuel
  induction fuel with
  | zero =>
    intro s hs p hp
    simp only [splitGo, List.mem_singleton] at hp
    subst hp
    omega
  | succ fuel ih =>
    intro s hs p hp
    simp only [splitGo] at hp
    by_cases hle : s.length ≤ size
    · rw [if_pos hle] at hp
      simp only [List.mem_singleton] at hp
      subst hp
      exact hle
    · rw [if_neg hle] at hp
      rcases List.mem_cons.mp hp with h | h
      · subst h
        simp
      · exact ih (s.drop step) (by simp [List.length_drop]; omega) p h

/-- The first passage the window yields is always the first size characters
of the text. -/
theorem splitGo_head (size step : Nat) :
    ∀ (fuel : Nat) (s : List Char), s.length ≤ fuel + size →
      (splitGo size step fuel s).head? = some (s.take size) := by
  intro fuel
  cases fuel with
  | zero =>
    intro s hs
    simp only [splitGo, List.head?_cons]
    rw [List.take_of_length_le (by omega)]
  | succ fuel =>
    intro s hs
    simp only [splitGo]
    by_cases hle : s.length ≤ size
    · rw [if_pos hle]
      simp only [List.head?_cons]
      rw [List.take_of_length_le hle]
    · rw [if_neg hle]
      simp

/-- Every pair of successive passages overlaps in exactly size - step
characters: the last size - step characters of the former are the first
size - step characters of the latter. -/
theorem splitGo_chain (size step : Nat) (hstep : 0 < step)
    (hlt : step < size) :
    ∀ (fuel : Nat) (s : List Char), s.length ≤ fuel + size →
      List.Chain' (fun p q => p.drop step = q.take (size - step)
        ∧ (p.drop step).length = size - step)
        (splitGo size step fuel s) := by
  intro fuel
  induction fuel with
  | zero => intro s hs; simp [splitGo]
  | succ fuel ih =>
    intro s hs
    simp only [splitGo]
    by_cases hle : s.length ≤ size
    · rw [if_pos hle]
      simp
    · rw [if_neg hle]
      rw [List.chain'_cons']
      constructor
      · intro q hq
        rw [splitGo_head size step fuel (s.drop step)
          (by simp [List.length_drop]; omega)] at hq
        simp only [Option.mem_def, Option.some_inj] at hq
        subst hq
        constructor
        · rw [List.drop_take, List.take_take, min_eq_left (by omega)]
        · simp only [List.length_drop, List.length_take]
          omega
      · exact ih (s.drop step) (by simp [List.length_drop]; omega)

/-- The number of passages depends only on the length of the text. -/
theorem splitGo_length_congr (size step : Nat) :
    ∀ (fuel : Nat) (s t : List Char), s.length = t.length →
      (splitGo size step fuel s).length
        = (splitGo size step fuel t).length := by
  intro fuel
  induction fuel with
  | zero => intro s t h; simp [splitGo]
  | succ fuel ih =>
    intro s t h
    simp only [splitGo]
    by_cases hle : s.length ≤ size
    · rw [if_pos hle, if_pos (by omega)]
      rfl
    · rw [if_neg hle, if_neg (by omega)]
      simp only [List.length_cons]
      rw [ih (s.drop step) (t.drop step) (by simp [List.length_drop, h])]

/-- C6: splitting with chunk_size 1000 and overlap 200 yields passages of at
most 1000 characters; every pair of successive passages shares exactly 200
characters (the final 200 of the former are the initial 200 of the latter) —
stronger than the claim, which excepts the boundary pairs; and the passage
count is a function of the text length alone, hence deterministic for fixed
input and parameters. -/
theorem split_documents_spec (s : List Char) :
    (∀ p ∈ split_documents s, p.length ≤ 1000)
    ∧ List.Chain' (fun p q => p.drop 800 = q.take 200
        ∧ (p.drop 800).length = 200) (split_documents s)
    ∧ (∀ t : List Char, t.length = s.length →
        (split_documents t).length = (split_documents s).length) := by
  refine ⟨?_, ?_, ?_⟩
  · intro p hp
    exact splitGo_sizes 1000 800 (by omega) s.length s (by omega) p hp
  · have h := splitGo_chain 1000 800 (by omega) (by omega) s.length s
      (by omega)
    simpa using h
  · intro t ht
    unfold split_documents splitGreedy
    rw [ht]
    exact splitGo_length_congr 1000 800 s.length t s ht

/-- Witness for C6 at a concrete two-character document: the single passage
it yields is a member of the split and is within the 1000-character bound,
and a same-length document yields the same passage count. -/
theorem split_documents_spec_witness :
    ((['a', 'b'] ∈ split_documents ['a', 'b'])
      ∧ (['c', 'd'] : List Char).length = (['a', 'b'] : List Char).length)
    ∧ ((['a', 'b'] : List Char).length ≤ 1000
      ∧ (split_documents ['c', 'd']).length
        = (split_documents ['a', 'b']).length) :=
  ⟨⟨by decide, by decide⟩,
    (split_documents_spec ['a', 'b']).1 ['a', 'b'] (by decide),
    (split_documents_spec ['a', 'b']).2.2 ['c', 'd'] (by decide)⟩
